import Mathlib

namespace Portal

/-! # SharkSpace Portal — verification of the core pipeline

Shallow embedding of the SharkSpace Labs client-portal core:

* `public/sw.js` — the Request Interception Layer (service worker):
  `message` handler (`SET_FILE_MAP` / `FILE_MAP_SET` acknowledgment) and
  `fetch` handler (virtual-scope lookup against the in-memory file table).
* `src/components/ProjectViewer.tsx` — the page pipeline: envelope parsing
  (`hexToUint8Array`, `decryptPackage`), archive unpacking into the virtual
  file table, the handoff over a `MessageChannel`, and the state machine.
* `encrypt-directory.cjs` — the producer side of the envelope wire format.

Strings are modelled as `List Char` where JavaScript string operations
(`split`, `indexOf`, `substring`, `match`) need to be mirrored precisely;
byte arrays as `List Nat` with values below 256.
-/

/-! ## JavaScript string-operation models -/

/-- Model of JavaScript `s.split(sep)` for a single-character separator:
`""` splits to `[""]`, a trailing separator yields a trailing `""`. -/
def splitChar (sep : Char) : List Char → List (List Char)
  | [] => [[]]
  | c :: cs =>
    if c = sep then [] :: splitChar sep cs
    else
      match splitChar sep cs with
      | [] => [[c]]
      | g :: gs => (c :: g) :: gs

/-! ## The Request Interception Layer (`public/sw.js`)

The service worker keeps a nullable global `fileMap` (a JS `Map` from
normalized path to `Blob`), updated by the `message` handler and read by the
`fetch` handler.  A JS `Map` is modelled extensionally as an association list
where `set` prepends (so later writes shadow earlier ones) and `get` takes
the first match. -/

/-- A JS `Blob`: payload bytes plus its `type` (MIME type) option. -/
structure Blob where
  bytes : List Nat
  type : String
deriving DecidableEq

/-- The virtual file table: JS `Map<string, Blob>` modelled extensionally. -/
def FileMap := List (String × Blob)

instance : DecidableEq FileMap := by unfold FileMap; infer_instance

/-- JS `Map.prototype.get`: first (most recent) binding, or `undefined`. -/
def lookupFM : FileMap → String → Option Blob
  | [], _ => none
  | (k, v) :: rest, key => if k = key then some v else lookupFM rest key

/-- JS `Map.prototype.set`: the new binding shadows any older one. -/
def setFM (fm : FileMap) (k : String) (v : Blob) : FileMap := (k, v) :: fm

/-- `const VIRTUAL_SCOPE = '/portal-scope/'` — the unique path part the
worker looks for. -/
def VIRTUAL_SCOPE : List Char := "/portal-scope/".data

/-- Model of `path.indexOf(pat)` followed by
`path.substring(scopeIndex + pat.length)`: `none` when the pattern does not
occur in the path, otherwise the remainder after its first occurrence. -/
def findScopeRem (pat : List Char) : List Char → Option (List Char)
  | [] => if pat.isPrefixOf ([] : List Char) then some [] else none
  | c :: cs =>
    if pat.isPrefixOf (c :: cs) then some (List.drop pat.length (c :: cs))
    else findScopeRem pat cs

/-- JS falsy-default on a string: the empty string is replaced by
`'index.html'` (this is both `|| 'index.html'` and the explicit
`if (filePath === '')` check, which test the same condition). -/
def orIndexHtml (l : List Char) : List Char :=
  if l = [] then "index.html".data else l

/-- The worker's lookup key for the remainder after the virtual scope:
`remainder.split('/').pop() || 'index.html'`, then the (redundant)
`if (filePath === '') filePath = 'index.html'`. -/
def swFileKey (rem : List Char) : String :=
  String.mk (orIndexHtml (orIndexHtml ((splitChar '/' rem).getLastD [])))

/-- A response from the worker: either a text body with a status, or a file
response built from a stored blob (`new Response(fileBlob)`, status 200,
content type taken from the blob). -/
inductive SWResponse
  | text (status : Nat) (body : String)
  | file (b : Blob)
deriving DecidableEq

/-- The `fetch` event listener of `public/sw.js`: intercept exactly when the
virtual scope occurs in the path (`indexOf(...) !== -1`); while `fileMap` is
null answer 500; otherwise look up the key and serve the blob or a 404.
`none` means no `respondWith` was issued (network fallthrough). -/
def handleFetch (fileMap : Option FileMap) (path : String) : Option SWResponse :=
  match findScopeRem VIRTUAL_SCOPE path.data with
  | none => none
  | some rem =>
    some (match fileMap with
      | none => .text 500 "Service Worker is active but has no file data."
      | some fm =>
        match lookupFM fm (swFileKey rem) with
        | some b => .file b
        | none => .text 404 "File not found in virtual project.")

/-- Payload of a `postMessage` to the worker. -/
structure SWMsgData where
  type : String
  fileMap : FileMap
deriving DecidableEq

/-- A `message` event as the worker sees it: possibly-absent `data`, and
whether `event.ports[0]` holds a transferred `MessagePort`. -/
structure SWMsgEvent where
  data : Option SWMsgData
  hasPort : Bool
deriving DecidableEq

/-- The `message` event listener of `public/sw.js`: on a `SET_FILE_MAP`
message, unconditionally overwrite the stored table; reply `FILE_MAP_SET`
over `event.ports[0]` when a port was transferred.  Returns the new stored
table and whether the acknowledgment was sent. -/
def handleMessage (st : Option FileMap) (ev : SWMsgEvent) :
    Option FileMap × Bool :=
  match ev.data with
  | some d =>
    if d.type = "SET_FILE_MAP" then (some d.fileMap, ev.hasPort) else (st, false)
  | none => (st, false)

/-- The interception layer's path normalization: what the worker turns the
scope-relative remainder of a request path into before the table lookup. -/
def swNormalize (p : String) : String := swFileKey p.data

/-! ## Envelope parsing (`ProjectViewer.tsx`: `hexToUint8Array`,
`decryptPackage`)

`decryptPackage` destructures `encryptedDataBlob.split('.')` into four hex
segments and decodes each with `hexToUint8Array`.  The JS runtime behavior
is modelled explicitly: a missing destructured segment is `undefined` and
calling `.match` on it throws a `TypeError`; when the regex finds no chunk
at all (the segment is empty or consists only of line terminators, which
`.` cannot match) `match` returns `null` and the non-null assertion makes
the subsequent `.map` throw. -/

/-- A JS runtime `TypeError` thrown during parsing. -/
inductive JsError
  | typeError
deriving DecidableEq

/-- A character the JS regex `.` cannot match (ECMAScript line
terminators). -/
def isLineTerminator (c : Char) : Bool :=
  c = Char.ofNat 10 || c = Char.ofNat 13 ||
    c = Char.ofNat 0x2028 || c = Char.ofNat 0x2029

/-- JS `hex.match(/.{1,2}/g)`: scan left to right, skipping characters `.`
cannot match, taking greedy chunks of two matchable characters (backing off
to one when the next character is unmatchable or the string ends).  The
overall `match` result is `null` exactly when this list is empty. -/
def matchChunks : List Char → List (List Char)
  | [] => []
  | [c] => if isLineTerminator c then [] else [[c]]
  | c :: c2 :: rest =>
    if isLineTerminator c then matchChunks (c2 :: rest)
    else if isLineTerminator c2 then [c] :: matchChunks (c2 :: rest)
    else [c, c2] :: matchChunks rest

/-- Hex digit value, case-insensitive (as `parseInt(_, 16)` reads digits). -/
def hexVal (c : Char) : Option Nat :=
  if '0' ≤ c ∧ c ≤ '9' then some (c.toNat - 48)
  else if 'a' ≤ c ∧ c ≤ 'f' then some (c.toNat - 87)
  else if 'A' ≤ c ∧ c ≤ 'F' then some (c.toNat - 55)
  else none

/-- `parseInt(chunk, 16)` on a 1–2 character chunk followed by the
`Uint8Array` element coercion: `parseInt` reads the longest hex-digit
prefix (`NaN` if there is none), and the element store maps `NaN` to 0 and
other values to their value mod 256.  (For hex-digit chunks this is exact;
`parseInt`'s leading-whitespace trimming on junk chunks is not modelled —
it can change stored byte values, never success or failure.) -/
def parseHexChunkByte : List Char → Nat
  | [] => 0
  | [a] => ((hexVal a).getD 0) % 256
  | a :: b :: _ =>
    match hexVal a with
    | none => 0
    | some va =>
      match hexVal b with
      | none => va % 256
      | some vb => (16 * va + vb) % 256

/-- `hexToUint8Array` of `ProjectViewer.tsx`, with the JS error behavior
made explicit: applied to `undefined` (`none`) it throws a `TypeError`;
when `match` finds no chunk it returns `null` and the `.map` throws;
otherwise the chunks are parsed into bytes. -/
def hexToUint8Array : Option (List Char) → Except JsError (List Nat)
  | none => .error .typeError
  | some cs =>
    match matchChunks cs with
    | [] => .error .typeError
    | chunks => .ok (chunks.map parseHexChunkByte)

/-- The four byte fields recovered from the wire string. -/
structure ParsedEnvelope where
  salt : List Nat
  iv : List Nat
  authTag : List Nat
  encryptedArchive : List Nat
deriving DecidableEq

/-- The parse phase of `decryptPackage`: split the wire string on `.`,
destructure the first four segments (missing ones are `undefined`), and
hex-decode each.  Segments past the fourth are dropped by the
destructuring. -/
def parseEnvelope (wire : String) : Except JsError ParsedEnvelope := do
  let segs := splitChar '.' wire.data
  let salt ← hexToUint8Array (segs.get? 0)
  let iv ← hexToUint8Array (segs.get? 1)
  let authTag ← hexToUint8Array (segs.get? 2)
  let encryptedArchive ← hexToUint8Array (segs.get? 3)
  return ⟨salt, iv, authTag, encryptedArchive⟩

/-! ## Archive unpacking into the Virtual File Table
(`ProjectViewer.tsx`, `loadProject` step 5)

`untar` yields entries with a `name`, a `type` flag (`"5"` marks a
directory in the tar header) and a `buffer`.  The `forEach` over the
entries rewrites HTML/CSS buffers in place, normalizes the name by
stripping one leading `./`, and inserts every entry into the `Map` —
there is no check of the entry's `type` flag anywhere in the loop. -/

/-- An entry as returned by `js-untar`. -/
structure TarEntry where
  name : String
  type : String
  buffer : List Nat
deriving DecidableEq

/-- `getMimeType` of `ProjectViewer.tsx`: extension lookup. -/
def getMimeType (filename : String) : String :=
  if filename.endsWith ".html" then "text/html"
  else if filename.endsWith ".css" then "text/css"
  else if filename.endsWith ".js" then "application/javascript"
  else if filename.endsWith ".png" then "image/png"
  else if filename.endsWith ".jpg" || filename.endsWith ".jpeg" then "image/jpeg"
  else if filename.endsWith ".svg" then "image/svg+xml"
  else "application/octet-stream"

/-- `file.name.replace(/^\.\//, '')`: strip one leading `./`. -/
def normalizeName (s : String) : String :=
  match s.data with
  | '.' :: '/' :: rest => String.mk rest
  | _ => s

/-- The `files.forEach` loop of `loadProject`: every entry is inserted into
the table under its normalized name with its (possibly rewritten) buffer and
extension-derived MIME type.  The in-place HTML/CSS link rewrite and
base-tag injection only transform the buffer bytes, never the name, and are
abstracted as the `transformBuf` parameter. -/
def buildFileMap (transformBuf : TarEntry → List Nat)
    (files : List TarEntry) : FileMap :=
  files.foldl
    (fun fm f =>
      setFM fm (normalizeName f.name)
        (Blob.mk (transformBuf f) (getMimeType f.name)))
    []

/-! ## The page pipeline (`ProjectViewer.tsx`, `loadProject`)

`loadProject` runs once per page load.  Each awaited effect's outcome is an
input of the model (`PVEnv`); the function mirrors the statement order of
the source, returning the component state reached before any port message is
processed, together with whether the `MessageChannel` acknowledgment handler
is armed (i.e. `postMessage` to the worker's controller succeeded).  The
`FILE_MAP_SET` handler is the only code that sets the iframe source or the
`success` status. -/

/-- The `Status` union type of `ProjectViewer.tsx`. -/
inductive Status
  | checking
  | unsupported
  | insecure
  | registering_sw
  | loading
  | decrypting
  | unpacking
  | error
  | success
deriving DecidableEq

/-- The component state surfaced to the UI: `status`, `errorMessage`,
`iframeSrc`. -/
structure PVState where
  status : Status
  errorMessage : String
  iframeSrc : Option String
deriving DecidableEq

/-- A failure thrown inside the fetch/decrypt/unpack `try` block by the
decryption layer: the `TypeError` of a malformed envelope in the parse
phase, or the `OperationError` of a failed AES-GCM tag check. -/
inductive DecFailure
  | malformedEnvelope
  | authenticationFailed
deriving DecidableEq

/-- Outcomes of the awaited effects of one `loadProject` run. -/
structure PVEnv where
  hasCryptoSubtle : Bool
  hasServiceWorker : Bool
  isSecureContext : Bool
  swRegisterOk : Bool
  projectId : Option String
  password : Option String
  fetchOk : Bool
  decryptResult : Except DecFailure (List TarEntry)
  controllerActive : Bool

/-- JS falsiness of `params.get(...)`: `null` or the empty string. -/
def jsFalsyStr : Option String → Bool
  | none => true
  | some s => s = ""

/-- The single message shown by the `catch` of the fetch/decrypt/unpack
block, whatever was thrown. -/
def genericFailureMsg : String :=
  "Decryption or unpacking failed. Please check credentials and package integrity."

/-- One run of `loadProject` up to (and including) posting `SET_FILE_MAP`:
the state reached before any acknowledgment arrives, and whether the
acknowledgment handler is armed on a successfully posted message. -/
def runLoadProject (transformBuf : TarEntry → List Nat) (env : PVEnv) :
    PVState × Bool :=
  if !env.hasCryptoSubtle then (⟨.unsupported, "", none⟩, false)
  else if !env.hasServiceWorker then (⟨.unsupported, "", none⟩, false)
  else if !env.isSecureContext then (⟨.insecure, "", none⟩, false)
  else if !env.swRegisterOk then
    (⟨.error,
      "Could not register the service worker, which is required for project routing.",
      none⟩, false)
  else if jsFalsyStr env.projectId || jsFalsyStr env.password then
    (⟨.error, "Project ID or password missing from URL.", none⟩, false)
  else if !env.fetchOk then (⟨.error, genericFailureMsg, none⟩, false)
  else
    match env.decryptResult with
    | .error _ => (⟨.error, genericFailureMsg, none⟩, false)
    | .ok files =>
      let _fm := buildFileMap transformBuf files
      if !env.controllerActive then (⟨.error, genericFailureMsg, none⟩, false)
      else (⟨.unpacking, "", none⟩, true)

/-- Payload of a message delivered on `messageChannel.port1`. -/
structure PortMsgData where
  type : String
deriving DecidableEq

/-- A message event on `messageChannel.port1` (possibly without data). -/
structure PortMsg where
  data : Option PortMsgData
deriving DecidableEq

/-- `SCOPE_PREFIX` of `ProjectViewer.tsx`:
`BASE_URL.replace(/\/$/, '') + '/portal-scope/'`. -/
def scopePrefixOf (baseUrl : String) : String :=
  (if baseUrl.data.getLast? = some '/' then String.mk baseUrl.data.dropLast
   else baseUrl) ++ "/portal-scope/"

/-- The `port1.onmessage` handler: only a tagged `FILE_MAP_SET`
acknowledgment sets the iframe source to the virtual-scope entry point and
the status to `success`; every other message leaves the state unchanged. -/
def portHandler (baseUrl : String) (st : PVState) (m : PortMsg) : PVState :=
  match m.data with
  | some d =>
    if d.type = "FILE_MAP_SET" then
      ⟨.success, st.errorMessage, some (scopePrefixOf baseUrl ++ "index.html")⟩
    else st
  | none => st

/-- A full execution trace: one `loadProject` run followed by the port
messages delivered to the armed acknowledgment handler (none are delivered
when the handoff message was never posted). -/
def runWithMsgs (baseUrl : String) (transformBuf : TarEntry → List Nat)
    (env : PVEnv) (msgs : List PortMsg) : PVState :=
  if (runLoadProject transformBuf env).2 then
    msgs.foldl (portHandler baseUrl) (runLoadProject transformBuf env).1
  else (runLoadProject transformBuf env).1

/-! ## The envelope round trip
(`encrypt-directory.cjs` producer, `decryptPackage` consumer)

The framing — hex encoding, dot-joined field order
`salt.iv.authTag.ciphertext`, the shared 120,000-iteration constant, and the
consumer's reconstitution of ciphertext-plus-detached-tag — is repository
code and is modelled exactly.  The PBKDF2 and AES-256-GCM primitives are
platform libraries (`node:crypto`, WebCrypto), not repository code;
`CipherModel` abstracts them, and `GCMCorrect` — modelled from the spec:
authenticated encryption round-trips byte plaintexts under the same key and
IV — states the contract the round-trip claim assumes of them. -/

/-- `KEY_DERIVATION_ITERATIONS`, defined identically (120000) in
`encrypt-directory.cjs` and `ProjectViewer.tsx`. -/
def KEY_DERIVATION_ITERATIONS : Nat := 120000

/-- Lowercase hex digit, as produced by `Buffer.toString('hex')`. -/
def hexChar (n : Nat) : Char :=
  if n < 10 then Char.ofNat (48 + n) else Char.ofNat (87 + n)

/-- One byte as two lowercase hex digits. -/
def byteToHexPair (b : Nat) : List Char := [hexChar (b / 16), hexChar (b % 16)]

/-- `Buffer.toString('hex')`: each byte as two lowercase hex digits. -/
def bytesToHex : List Nat → List Char
  | [] => []
  | b :: rest => byteToHexPair b ++ bytesToHex rest

/-- Modelled from the spec: the key-derivation and authenticated-encryption
primitives (PBKDF2-SHA256 and AES-256-GCM), which live in `node:crypto` /
WebCrypto rather than in the repository.  `derive` takes the password, salt
and iteration count; `enc` returns (ciphertext, authTag); `dec` takes the
WebCrypto-style combined buffer `ciphertext ++ authTag` and returns the
plaintext or `none` on a failed tag check. -/
structure CipherModel where
  derive : String → List Nat → Nat → List Nat
  enc : List Nat → List Nat → List Nat → List Nat × List Nat
  dec : List Nat → List Nat → List Nat → Option (List Nat)

/-- Modelled from the spec: correctness of the authenticated cipher on byte
plaintexts — encryption is length-preserving, produces byte-valued
ciphertext and a non-empty byte-valued tag, and decryption of
`ciphertext ++ authTag` under the same key and IV recovers the plaintext. -/
def GCMCorrect (m : CipherModel) : Prop :=
  ∀ key iv p, (∀ b ∈ p, b < 256) →
    (m.enc key iv p).1.length = p.length ∧
    (∀ b ∈ (m.enc key iv p).1, b < 256) ∧
    (m.enc key iv p).2 ≠ [] ∧
    (∀ b ∈ (m.enc key iv p).2, b < 256) ∧
    m.dec key iv ((m.enc key iv p).1 ++ (m.enc key iv p).2) = some p

/-- `encryptDirectory` of `encrypt-directory.cjs` (the envelope framing):
derive the key from the password with the shared iteration count, encrypt
the archive buffer, and join `salt.iv.authTag.ciphertext` hex-encoded. -/
def encryptDirectory (m : CipherModel) (password : String)
    (salt iv archiveBuffer : List Nat) : String :=
  let key := m.derive password salt KEY_DERIVATION_ITERATIONS
  let ct := (m.enc key iv archiveBuffer).1
  let authTag := (m.enc key iv archiveBuffer).2
  String.mk
    (bytesToHex salt ++ '.' ::
      (bytesToHex iv ++ '.' :: (bytesToHex authTag ++ '.' :: bytesToHex ct)))

/-- Errors of the consumer's decryption: a `TypeError` thrown while parsing
the wire string, or the `OperationError` of a failed AES-GCM tag check. -/
inductive CryptoError
  | typeError
  | operationError
deriving DecidableEq

/-- `decryptPackage` of `ProjectViewer.tsx`: parse the four hex fields,
derive the key with the same shared iteration count, reconstitute the
WebCrypto combined buffer `ciphertext ++ authTag`
(`concatUint8Arrays(encryptedArchive, authTag)`) and decrypt. -/
def decryptPackage (m : CipherModel) (password : String) (wire : String) :
    Except CryptoError (List Nat) :=
  match parseEnvelope wire with
  | .error _ => .error .typeError
  | .ok env =>
    let key := m.derive password env.salt KEY_DERIVATION_ITERATIONS
    match m.dec key env.iv (env.encryptedArchive ++ env.authTag) with
    | some p => .ok p
    | none => .error .operationError

/-- A concrete instance of the abstract cipher contract, used to witness the
round-trip theorem: a fixed-shift byte cipher with a constant one-byte tag.
It is not a real cipher; it only inhabits `GCMCorrect`. -/
def toyCipher : CipherModel where
  derive := fun _ salt _ => salt
  enc := fun _ _ p => (p.map (fun b => (b + 3) % 256), [171])
  dec := fun _ _ combined =>
    if combined.getLast? = some 171 then
      some (combined.dropLast.map (fun b => (b + 253) % 256))
    else none

/-! ## Properties and claim theorems -/

theorem splitChar_ne_nil (sep : Char) (s : List Char) : splitChar sep s ≠ [] := by
  cases s with
  | nil => simp [splitChar]
  | cons c cs =>
    simp only [splitChar]
    split
    · simp
    · split
      · simp
      · simp

/-- Splitting a separator-free list returns the list whole. -/
theorem splitChar_of_not_mem {sep : Char} {s : List Char} (h : sep ∉ s) :
    splitChar sep s = [s] := by
  induction s with
  | nil => rfl
  | cons c cs ih =>
    simp only [List.mem_cons, not_or] at h
    simp only [splitChar]
    rw [if_neg (fun hc => h.1 hc.symm), ih h.2]

/-- Splitting at the first separator: the separator-free chunk before it
becomes the head group. -/
theorem splitChar_append_sep {sep : Char} {a : List Char} (b : List Char)
    (h : sep ∉ a) : splitChar sep (a ++ sep :: b) = a :: splitChar sep b := by
  induction a with
  | nil => simp [splitChar]
  | cons c cs ih =>
    simp only [List.mem_cons, not_or] at h
    simp only [List.cons_append, splitChar, List.append_eq]
    rw [if_neg (fun hc => h.1 hc.symm), ih h.2]

/-- A trailing separator contributes a trailing empty group. -/
theorem splitChar_concat_sep (sep : Char) (s : List Char) :
    splitChar sep (s ++ [sep]) = splitChar sep s ++ [[]] := by
  induction s with
  | nil => simp [splitChar]
  | cons c cs ih =>
    simp only [List.cons_append, splitChar, List.append_eq]
    split
    · rw [ih]; simp
    · rw [ih]
      cases hs : splitChar sep cs with
      | nil => exact absurd hs (splitChar_ne_nil sep cs)
      | cons g gs => simp

/-- A list ending in the separator splits into groups ending in `[]`. -/
theorem splitChar_getLastD_concat (sep : Char) (s : List Char) :
    (splitChar sep (s ++ [sep])).getLastD [] = [] := by
  rw [splitChar_concat_sep]
  exact List.getLastD_concat _ _ _

/-- No group produced by `splitChar` contains the separator. -/
theorem not_mem_of_mem_splitChar {sep : Char} {s g : List Char}
    (hg : g ∈ splitChar sep s) : sep ∉ g := by
  induction s generalizing g with
  | nil =>
    simp only [splitChar, List.mem_singleton] at hg
    subst hg; simp
  | cons c cs ih =>
    simp only [splitChar] at hg
    by_cases hc : c = sep
    · rw [if_pos hc] at hg
      rcases List.mem_cons.mp hg with h | h
      · subst h; simp
      · exact ih h
    · rw [if_neg hc] at hg
      cases hs : splitChar sep cs with
      | nil => exact absurd hs (splitChar_ne_nil sep cs)
      | cons g0 gs =>
        rw [hs] at hg
        rcases List.mem_cons.mp hg with h | h
        · subst h
          intro hmem
          rcases List.mem_cons.mp hmem with h | h
          · exact hc h.symm
          · exact ih (hs ▸ List.mem_cons_self g0 gs) h
        · exact ih (hs ▸ List.mem_cons.mpr (Or.inr h))

/-- The last group of a split is one of its groups. -/
theorem getLastD_mem_of_ne_nil {l : List (List Char)} (h : l ≠ []) :
    l.getLastD [] ∈ l := by
  cases l with
  | nil => exact absurd rfl h
  | cons x xs =>
    rw [List.getLastD_eq_getLast?, List.getLast?_eq_getLast (x :: xs) (by simp)]
    simp [List.getLast_mem]

theorem lookupFM_setFM_same (fm : FileMap) (k : String) (v : Blob) :
    lookupFM (setFM fm k v) k = some v := by simp [setFM, lookupFM]

theorem lookupFM_setFM_other (fm : FileMap) {k k' : String} (v : Blob)
    (h : k ≠ k') : lookupFM (setFM fm k v) k' = lookupFM fm k' := by
  simp [setFM, lookupFM, h]

/-- `orIndexHtml` never returns the empty string. -/
theorem orIndexHtml_ne_nil (l : List Char) : orIndexHtml l ≠ [] := by
  unfold orIndexHtml
  split
  · decide
  · assumption

/-- `orIndexHtml` is the identity on non-empty strings. -/
theorem orIndexHtml_of_ne_nil {l : List Char} (h : l ≠ []) :
    orIndexHtml l = l := if_neg h

/-- The key the worker produces is never empty and never contains `/`. -/
theorem swFileKey_data (rem : List Char) :
    (swFileKey rem).data ≠ [] ∧ ('/' : Char) ∉ (swFileKey rem).data := by
  unfold swFileKey
  by_cases hp : (splitChar '/' rem).getLastD [] = []
  · rw [hp]
    constructor
    · decide
    · decide
  · rw [orIndexHtml_of_ne_nil hp, orIndexHtml_of_ne_nil hp]
    refine ⟨hp, ?_⟩
    exact not_mem_of_mem_splitChar
      (getLastD_mem_of_ne_nil (splitChar_ne_nil '/' rem))

/-- `getLastD` of a singleton list. -/
theorem getLastD_single {α : Type} (a d : α) : [a].getLastD d = a := rfl

/-- On a slash-free, non-empty input the worker's key function is the
identity. -/
theorem swFileKey_of_no_slash {k : List Char} (hne : k ≠ [])
    (hns : ('/' : Char) ∉ k) : swFileKey k = String.mk k := by
  unfold swFileKey
  rw [splitChar_of_not_mem hns, getLastD_single,
    orIndexHtml_of_ne_nil hne, orIndexHtml_of_ne_nil hne]

/-- C7: the interception layer's path normalization is idempotent, maps the
empty path to `index.html`, and maps `./x` to `x`. -/
theorem sw_normalize_idempotent :
    (∀ p : String, swNormalize (swNormalize p) = swNormalize p) ∧
    swNormalize "" = "index.html" ∧ swNormalize "./x" = "x" := by
  refine ⟨?_, by decide, by decide⟩
  intro p
  obtain ⟨hne, hns⟩ := swFileKey_data p.data
  show swFileKey (swFileKey p.data).data = swFileKey p.data
  rw [swFileKey_of_no_slash hne hns]

/-- C10: a `SET_FILE_MAP` message unconditionally replaces the worker's
stored table with the message's table, and the `FILE_MAP_SET` acknowledgment
is sent exactly when a `MessagePort` was transferred with the message. -/
theorem sw_set_file_map_semantics (st : Option FileMap) (fm : FileMap)
    (hp : Bool) :
    handleMessage st ⟨some ⟨"SET_FILE_MAP", fm⟩, hp⟩ = (some fm, hp) := by
  simp [handleMessage]

/-- C3: any request intercepted under the virtual scope before a file table
has been handed off is answered with the explicit 500 "no file data"
response — never a 404 and never a network fallthrough. -/
theorem sw_uninitialized_responds_500 (path : String) (rem : List Char)
    (h : findScopeRem VIRTUAL_SCOPE path.data = some rem) :
    handleFetch none path =
      some (SWResponse.text 500
        "Service Worker is active but has no file data.") := by
  unfold handleFetch
  rw [h]

/-- Witness for the uninitialized-interception theorem at a concrete path. -/
theorem sw_uninitialized_responds_500_witness :
    handleFetch none "/portal-scope/x.html" =
      some (SWResponse.text 500
        "Service Worker is active but has no file data.") :=
  sw_uninitialized_responds_500 "/portal-scope/x.html" "x.html".data (by decide)

/-- C4 counterexample: a path that does not begin with the virtual-scope
marker but contains it mid-path is nevertheless intercepted (the worker
checks `indexOf`, not a path-start test). -/
theorem sw_intercepts_without_path_start :
    VIRTUAL_SCOPE.isPrefixOf "/evil/portal-scope/x.html".data = false ∧
    handleFetch (some []) "/evil/portal-scope/x.html" =
      some (SWResponse.text 404 "File not found in virtual project.") := by
  decide

/-- C4 amended: a request passes through uninterpreted exactly when the
virtual-scope marker does not occur anywhere in its path. -/
theorem sw_interception_iff_marker_in_path (st : Option FileMap)
    (path : String) :
    handleFetch st path = none ↔
      findScopeRem VIRTUAL_SCOPE path.data = none := by
  unfold handleFetch
  cases h : findScopeRem VIRTUAL_SCOPE path.data <;> simp

/-- C2 counterexample: for a nested path under the scope the worker's lookup
key is only the last segment, so a file stored under its full relative path
is not served. -/
theorem sw_lookup_uses_last_segment_only :
    swFileKey "assets/img.png".data = "img.png" ∧
    handleFetch (some [("assets/img.png", Blob.mk [137, 80] "image/png")])
        "/portal-scope/assets/img.png" =
      some (SWResponse.text 404 "File not found in virtual project.") := by
  decide

/-- C2 amended: for an in-scope request the worker looks up the *last
segment* of the prefix-stripped remainder (an empty or trailing-slash
remainder resolving to `index.html`) and serves the stored blob — bytes and
content type — or the 404 response when that key is absent. -/
theorem sw_serves_by_last_segment (fm : FileMap) (path : String)
    (rem : List Char)
    (h : findScopeRem VIRTUAL_SCOPE path.data = some rem) :
    ((rem = [] ∨ ∃ r, rem = r ++ ['/']) → swFileKey rem = "index.html") ∧
    (∀ b, lookupFM fm (swFileKey rem) = some b →
        handleFetch (some fm) path = some (SWResponse.file b)) ∧
    (lookupFM fm (swFileKey rem) = none →
        handleFetch (some fm) path =
          some (SWResponse.text 404 "File not found in virtual project.")) := by
  refine ⟨?_, ?_, ?_⟩
  · rintro (rfl | ⟨r, rfl⟩)
    · decide
    · unfold swFileKey
      rw [splitChar_getLastD_concat]
      decide
  · intro b hb
    simp [handleFetch, h, hb]
  · intro hb
    simp [handleFetch, h, hb]

/-- Witness for the amended serving theorem: the scope root serves the
stored `index.html` blob. -/
theorem sw_serves_by_last_segment_witness :
    handleFetch (some [("index.html", Blob.mk [60] "text/html")])
        "/portal-scope/" =
      some (SWResponse.file (Blob.mk [60] "text/html")) :=
  (sw_serves_by_last_segment [("index.html", Blob.mk [60] "text/html")]
      "/portal-scope/" [] (by decide)).2.1 _ (by decide)

/-- The regex finds no chunk exactly when every character of the segment is
a line terminator (in particular, when the segment is empty). -/
theorem matchChunks_eq_nil_iff (cs : List Char) :
    matchChunks cs = [] ↔ ∀ c ∈ cs, isLineTerminator c = true := by
  induction cs with
  | nil => simp [matchChunks]
  | cons c cs ih =>
    cases cs with
    | nil =>
      by_cases hc : isLineTerminator c = true <;> simp [matchChunks, hc]
    | cons c2 rest =>
      by_cases hc : isLineTerminator c = true
      · simp [matchChunks, hc, ih]
      · by_cases hc2 : isLineTerminator c2 = true <;>
          simp [matchChunks, hc, hc2]

theorem except_bind_error {ε α β : Type} (e : ε) (f : α → Except ε β) :
    (Except.error e >>= f) = Except.error e := rfl

theorem except_bind_ok {ε α β : Type} (a : α) (f : α → Except ε β) :
    (Except.ok a >>= f) = f a := rfl

theorem except_map_error {ε α β : Type} (e : ε) (f : α → β) :
    (f <$> (Except.error e : Except ε α)) = Except.error e := rfl

theorem except_map_ok {ε α β : Type} (a : α) (f : α → β) :
    (f <$> (Except.ok a : Except ε α)) = Except.ok (f a) := rfl

/-- `hexToUint8Array` succeeds exactly on a present segment with at least
one chunk. -/
theorem hexToUint8Array_ok_imp {o : Option (List Char)} {bs : List Nat}
    (h : hexToUint8Array o = .ok bs) :
    ∃ l, o = some l ∧ matchChunks l ≠ [] := by
  cases o with
  | none => simp [hexToUint8Array] at h
  | some l =>
    cases hm : matchChunks l with
    | nil => simp [hexToUint8Array, hm] at h
    | cons ch chs => exact ⟨l, rfl, by simp [hm]⟩

/-- A present segment with at least one chunk hex-decodes successfully. -/
theorem hexToUint8Array_ok_of_good {o : Option (List Char)} {l : List Char}
    (ho : o = some l) (hne : matchChunks l ≠ []) :
    ∃ bs, hexToUint8Array o = .ok bs := by
  subst ho
  cases hm : matchChunks l with
  | nil => exact absurd hm hne
  | cons ch chs =>
    exact ⟨(ch :: chs).map parseHexChunkByte, by simp [hexToUint8Array, hm]⟩

/-- When all of the first four split segments are present and chunkable the
parse phase succeeds. -/
theorem parseEnvelope_ok_of_good (wire : String)
    (hgood : ∀ i, i < 4 → ∃ l,
      (splitChar '.' wire.data)[i]? = some l ∧ matchChunks l ≠ []) :
    ∃ env, parseEnvelope wire = .ok env := by
  obtain ⟨l0, h0, n0⟩ := hgood 0 (by norm_num)
  obtain ⟨l1, h1, n1⟩ := hgood 1 (by norm_num)
  obtain ⟨l2, h2, n2⟩ := hgood 2 (by norm_num)
  obtain ⟨l3, h3, n3⟩ := hgood 3 (by norm_num)
  obtain ⟨b0, hb0⟩ := hexToUint8Array_ok_of_good h0 n0
  obtain ⟨b1, hb1⟩ := hexToUint8Array_ok_of_good h1 n1
  obtain ⟨b2, hb2⟩ := hexToUint8Array_ok_of_good h2 n2
  obtain ⟨b3, hb3⟩ := hexToUint8Array_ok_of_good h3 n3
  refine ⟨⟨b0, b1, b2, b3⟩, ?_⟩
  simp [parseEnvelope, hb0, hb1, hb2, hb3, except_bind_ok, except_map_ok]

/-- A successful parse forces all of the first four segments to be present
and chunkable. -/
theorem parseEnvelope_good_of_ok (wire : String) (env : ParsedEnvelope)
    (h : parseEnvelope wire = .ok env) :
    ∀ i, i < 4 → ∃ l, (splitChar '.' wire.data)[i]? = some l ∧
      matchChunks l ≠ [] := by
  intro i hi
  cases h0 : hexToUint8Array ((splitChar '.' wire.data)[0]?) with
  | error e => simp [parseEnvelope, h0, except_bind_error] at h
  | ok b0 =>
  cases h1 : hexToUint8Array ((splitChar '.' wire.data)[1]?) with
  | error e => simp [parseEnvelope, h0, h1, except_bind_error, except_bind_ok] at h
  | ok b1 =>
  cases h2 : hexToUint8Array ((splitChar '.' wire.data)[2]?) with
  | error e =>
    simp [parseEnvelope, h0, h1, h2, except_bind_error, except_bind_ok] at h
  | ok b2 =>
  cases h3 : hexToUint8Array ((splitChar '.' wire.data)[3]?) with
  | error e =>
    simp [parseEnvelope, h0, h1, h2, h3, except_bind_error, except_bind_ok,
      except_map_error] at h
  | ok b3 =>
  interval_cases i
  · exact hexToUint8Array_ok_imp h0
  · exact hexToUint8Array_ok_imp h1
  · exact hexToUint8Array_ok_imp h2
  · exact hexToUint8Array_ok_imp h3

/-- C5 counterexample: a wire string with five segments parses successfully
(the fifth is dropped by the destructuring), and a wire string whose third
segment has odd hex-digit length also parses successfully (the trailing
digit becomes its own byte) — neither fails as the claim requires. -/
theorem parse_accepts_extra_and_odd_segments :
    parseEnvelope "aa.bb.cc.dd.ee" =
      Except.ok ⟨[170], [187], [204], [221]⟩ ∧
    parseEnvelope "aa.bb.abc.dd" =
      Except.ok ⟨[170], [187], [171, 12], [221]⟩ := ⟨rfl, rfl⟩

/-- C5 amended: envelope decoding fails (with a thrown `TypeError`, and no
envelope value) exactly when the wire string splits into fewer than four
segments or one of the first four segments yields no chunk (it is empty or
all line terminators); segments past the fourth are ignored and odd
hex-digit-length segments are accepted. -/
theorem parse_fails_iff_few_or_empty_segments (wire : String) :
    (∃ e, parseEnvelope wire = Except.error e) ↔
      ((splitChar '.' wire.data).length < 4 ∨
        ∃ i, i < 4 ∧ ∃ seg, (splitChar '.' wire.data)[i]? = some seg ∧
          matchChunks seg = []) := by
  constructor
  · rintro ⟨e, he⟩
    by_contra hno
    push_neg at hno
    obtain ⟨hlen, hne⟩ := hno
    have hgood : ∀ i, i < 4 → ∃ l,
        (splitChar '.' wire.data)[i]? = some l ∧ matchChunks l ≠ [] := by
      intro i hi
      have hlt : i < (splitChar '.' wire.data).length := by omega
      exact ⟨(splitChar '.' wire.data)[i], List.getElem?_eq_getElem hlt,
        hne i hi _ (List.getElem?_eq_getElem hlt)⟩
    obtain ⟨env, henv⟩ := parseEnvelope_ok_of_good wire hgood
    rw [henv] at he
    exact Except.noConfusion he
  · intro hbad
    have hj : ∃ j, j < 4 ∧ ((splitChar '.' wire.data)[j]? = none ∨
        ∃ seg, (splitChar '.' wire.data)[j]? = some seg ∧
          matchChunks seg = []) := by
      rcases hbad with hlen | ⟨i, hi, hempty⟩
      · exact ⟨3, by norm_num, Or.inl (List.getElem?_eq_none (by omega))⟩
      · exact ⟨i, hi, Or.inr hempty⟩
    obtain ⟨j, hj4, hbadj⟩ := hj
    cases hp : parseEnvelope wire with
    | error e => exact ⟨e, rfl⟩
    | ok env =>
      obtain ⟨l, hl, hlne⟩ := parseEnvelope_good_of_ok wire env hp j hj4
      rcases hbadj with hn | ⟨seg, hseg, hm0⟩
      · rw [hl] at hn; exact Option.noConfusion hn
      · rw [hl] at hseg
        rw [← Option.some.inj hseg] at hm0
        exact absurd hm0 hlne

/-- Witness for the amended parse theorem: a three-segment wire string fails
to decode. -/
theorem parse_fails_witness :
    ∃ e, parseEnvelope "aa.bb.cc" = Except.error e :=
  (parse_fails_iff_few_or_empty_segments "aa.bb.cc").mpr (Or.inl (by decide))

theorem lookupFM_setFM_isSome (fm : FileMap) (k key : String) (v : Blob) :
    (lookupFM (setFM fm k v) key).isSome = true ↔
      k = key ∨ (lookupFM fm key).isSome = true := by
  by_cases h : k = key <;> simp [setFM, lookupFM, h]

/-- Folding insertions accumulates exactly the normalized names as keys. -/
theorem buildFileMap_foldl_isSome (transformBuf : TarEntry → List Nat)
    (files : List TarEntry) (key : String) (acc : FileMap) :
    (lookupFM
        (files.foldl
          (fun fm f =>
            setFM fm (normalizeName f.name)
              (Blob.mk (transformBuf f) (getMimeType f.name)))
          acc)
        key).isSome = true ↔
      key ∈ files.map (fun f => normalizeName f.name) ∨
        (lookupFM acc key).isSome = true := by
  induction files generalizing acc with
  | nil => simp
  | cons f fs ih =>
    rw [List.foldl_cons, ih]
    rw [lookupFM_setFM_isSome]
    simp only [List.map_cons, List.mem_cons]
    constructor
    · rintro (h | hk | h)
      · exact Or.inl (Or.inr h)
      · exact Or.inl (Or.inl hk.symm)
      · exact Or.inr h
    · rintro ((hk | h) | h)
      · exact Or.inr (Or.inl hk.symm)
      · exact Or.inl h
      · exact Or.inr (Or.inr h)

/-- C8 counterexample: a directory entry (tar type flag `"5"`, name ending
in `/`) *is* inserted into the Virtual File Table — the loop never checks
the type flag, so the table can hold keys that name directories, not
servable files. -/
theorem directory_entry_inserted :
    (lookupFM
        (buildFileMap (fun f => f.buffer) [TarEntry.mk "./assets/" "5" []])
        "assets/").isSome = true := rfl

/-- C8 amended: no entry is filtered — the keys of the built Virtual File
Table are exactly the normalized names of *all* unpacked entries, directory
entries included. -/
theorem buildFileMap_keys (transformBuf : TarEntry → List Nat)
    (files : List TarEntry) (key : String) :
    (lookupFM (buildFileMap transformBuf files) key).isSome = true ↔
      key ∈ files.map (fun f => normalizeName f.name) := by
  rw [buildFileMap, buildFileMap_foldl_isSome]
  simp [lookupFM]

/-- Before any acknowledgment is processed, the iframe source is unset and
the status is never `success`. -/
theorem runLoadProject_pre_ack (transformBuf : TarEntry → List Nat)
    (env : PVEnv) :
    (runLoadProject transformBuf env).1.iframeSrc = none ∧
      (runLoadProject transformBuf env).1.status ≠ .success := by
  unfold runLoadProject
  repeat' split
  all_goals simp

/-- A trace of non-acknowledgment messages leaves the component state
untouched. -/
theorem foldl_portHandler_no_ack (baseUrl : String) :
    ∀ (msgs : List PortMsg) (s : PVState),
      (∀ m ∈ msgs, ∀ d, m.data = some d → d.type ≠ "FILE_MAP_SET") →
      msgs.foldl (portHandler baseUrl) s = s := by
  intro msgs
  induction msgs with
  | nil => intro s _; rfl
  | cons m ms ih =>
    intro s hno
    rw [List.foldl_cons]
    have hm : portHandler baseUrl s m = s := by
      cases hd : m.data with
      | none => simp [portHandler, hd]
      | some d => simp [portHandler, hd, hno m (List.mem_cons_self m ms) d hd]
    rw [hm]
    exact ih s (fun m' hm' d hd => hno m' (List.mem_cons_of_mem m hm') d hd)

/-- C1: in every execution trace in which no tagged `FILE_MAP_SET`
acknowledgment arrives on the message channel, the iframe source is never
set and the pipeline state never becomes `success` — equivalently, the
viewport is pointed at the virtual scope and the state transitions to
`success` only after the Interception Layer's acknowledgment of the
file-table handoff has been received. -/
theorem viewer_success_only_after_ack (baseUrl : String)
    (transformBuf : TarEntry → List Nat) (env : PVEnv) (msgs : List PortMsg)
    (hno : ∀ m ∈ msgs, ∀ d, m.data = some d → d.type ≠ "FILE_MAP_SET") :
    (runWithMsgs baseUrl transformBuf env msgs).iframeSrc = none ∧
      (runWithMsgs baseUrl transformBuf env msgs).status ≠ .success := by
  obtain ⟨h1, h2⟩ := runLoadProject_pre_ack transformBuf env
  unfold runWithMsgs
  cases hb : (runLoadProject transformBuf env).2 with
  | false => simpa using ⟨h1, h2⟩
  | true =>
    simp only [if_true, reduceIte]
    rw [foldl_portHandler_no_ack baseUrl msgs _ hno]
    exact ⟨h1, h2⟩

/-- Witness for the acknowledgment-ordering theorem: a complete, otherwise
successful run that receives only an unrelated message never shows the
iframe and never reports success. -/
theorem viewer_success_only_after_ack_witness :
    (runWithMsgs "/sharkspace-portal/" (fun f => f.buffer)
        ⟨true, true, true, true, some "p1", some "pw", true, .ok [], true⟩
        [⟨some ⟨"PING"⟩⟩]).iframeSrc = none ∧
      (runWithMsgs "/sharkspace-portal/" (fun f => f.buffer)
        ⟨true, true, true, true, some "p1", some "pw", true, .ok [], true⟩
        [⟨some ⟨"PING"⟩⟩]).status ≠ .success :=
  viewer_success_only_after_ack "/sharkspace-portal/" (fun f => f.buffer)
    ⟨true, true, true, true, some "p1", some "pw", true, .ok [], true⟩
    [⟨some ⟨"PING"⟩⟩]
    (by
      intro m hm d hd
      simp only [List.mem_singleton] at hm
      subst hm
      injection hd with h
      rw [← h]
      decide)

/-- C9: two failing runs of the decryption layer — one with a malformed
envelope, one with a failed authentication — both end in the `error` state
with *identical* user-visible error messages, so the surfaced output does
not reveal whether the password or the data was at fault. -/
theorem error_message_undifferentiated (transformBuf : TarEntry → List Nat)
    (env : PVEnv) (e1 e2 : DecFailure)
    (hcrypto : env.hasCryptoSubtle = true)
    (hsw : env.hasServiceWorker = true)
    (hsec : env.isSecureContext = true)
    (hreg : env.swRegisterOk = true)
    (hid : jsFalsyStr env.projectId = false)
    (hpw : jsFalsyStr env.password = false)
    (hfetch : env.fetchOk = true) :
    (runLoadProject transformBuf
        { env with decryptResult := .error e1 }).1.status = .error ∧
    (runLoadProject transformBuf
        { env with decryptResult := .error e2 }).1.status = .error ∧
    (runLoadProject transformBuf
          { env with decryptResult := .error e1 }).1.errorMessage =
      (runLoadProject transformBuf
          { env with decryptResult := .error e2 }).1.errorMessage := by
  simp [runLoadProject, hcrypto, hsw, hsec, hreg, hid, hpw, hfetch]

/-- Hex digits are recognized by `hexVal`. -/
theorem hexVal_hexChar : ∀ n, n < 16 → hexVal (hexChar n) = some n := by decide

/-- Hex digits are not the field separator. -/
theorem hexChar_ne_dot : ∀ n, n < 16 → hexChar n ≠ '.' := by decide

/-- Hex digits are matchable by the chunking regex. -/
theorem hexChar_not_lineTerm : ∀ n, n < 16 →
    isLineTerminator (hexChar n) = false := by decide

/-- The separator does not occur in a hex-encoded byte string. -/
theorem dot_not_mem_bytesToHex {bs : List Nat} (h : ∀ b ∈ bs, b < 256) :
    ('.' : Char) ∉ bytesToHex bs := by
  induction bs with
  | nil => simp [bytesToHex]
  | cons b rest ih =>
    have hb : b < 256 := h b (List.mem_cons_self b rest)
    simp only [bytesToHex, byteToHexPair, List.cons_append, List.nil_append,
      List.mem_cons, not_or]
    refine ⟨?_, ?_, ?_⟩
    · exact fun hc => hexChar_ne_dot (b / 16) (by omega) hc.symm
    · exact fun hc => hexChar_ne_dot (b % 16) (by omega) hc.symm
    · exact ih (fun x hx => h x (List.mem_cons_of_mem b hx))

/-- Hex decoding inverts hex encoding on byte values. -/
theorem parseHex_bytesToHex {bs : List Nat} (h : ∀ b ∈ bs, b < 256) :
    (matchChunks (bytesToHex bs)).map parseHexChunkByte = bs := by
  induction bs with
  | nil => rfl
  | cons b rest ih =>
    have hb : b < 256 := h b (List.mem_cons_self b rest)
    have h16a : b / 16 < 16 := by omega
    have h16b : b % 16 < 16 := by omega
    have t1 := hexChar_not_lineTerm (b / 16) h16a
    have t2 := hexChar_not_lineTerm (b % 16) h16b
    simp only [bytesToHex, byteToHexPair, List.cons_append, List.nil_append,
      List.append_eq, matchChunks, t1, t2, Bool.false_eq_true, if_false,
      List.map_cons]
    rw [ih (fun x hx => h x (List.mem_cons_of_mem b hx))]
    congr 1
    show parseHexChunkByte [hexChar (b / 16), hexChar (b % 16)] = b
    simp only [parseHexChunkByte, hexVal_hexChar _ h16a, hexVal_hexChar _ h16b]
    omega

/-- A non-empty byte string hex-encodes to a chunkable string. -/
theorem matchChunks_bytesToHex_ne_nil {bs : List Nat} (hne : bs ≠ [])
    (h : ∀ b ∈ bs, b < 256) : matchChunks (bytesToHex bs) ≠ [] := by
  intro hnil
  have hp := parseHex_bytesToHex h
  rw [hnil] at hp
  exact hne hp.symm

/-- Decoding a present, hex-encoded non-empty byte field succeeds and
returns the bytes. -/
theorem hexToUint8Array_bytesToHex {bs : List Nat} (hne : bs ≠ [])
    (h : ∀ b ∈ bs, b < 256) :
    hexToUint8Array (some (bytesToHex bs)) = .ok bs := by
  cases hm : matchChunks (bytesToHex bs) with
  | nil => exact absurd hm (matchChunks_bytesToHex_ne_nil hne h)
  | cons ch chs =>
    have hu : hexToUint8Array (some (bytesToHex bs)) =
        .ok ((ch :: chs).map parseHexChunkByte) := by
      simp [hexToUint8Array, hm]
    rw [hu, ← hm, parseHex_bytesToHex h]

/-- C6: for every plaintext archive and password, the consumer's
`decryptPackage` applied to the producer's wire string for that archive and
password — same password, producer-generated salt and IV — recovers exactly
the original archive bytes, assuming only that the shared platform cipher
satisfies the authenticated-encryption contract. -/
theorem envelope_roundtrip (m : CipherModel) (hm : GCMCorrect m)
    (password : String) (salt iv P : List Nat)
    (hsalt : salt ≠ []) (hiv : iv ≠ []) (hP : P ≠ [])
    (hsb : ∀ b ∈ salt, b < 256) (hivb : ∀ b ∈ iv, b < 256)
    (hPb : ∀ b ∈ P, b < 256) :
    decryptPackage m password (encryptDirectory m password salt iv P) =
      .ok P := by
  obtain ⟨hlen, hctb, htagne, htagb, hdec⟩ :=
    hm (m.derive password salt KEY_DERIVATION_ITERATIONS) iv P hPb
  set key := m.derive password salt KEY_DERIVATION_ITERATIONS with hkey
  set ct := (m.enc key iv P).1 with hct
  set tag := (m.enc key iv P).2 with htag
  have hctne : ct ≠ [] := by
    intro hnil
    rw [hnil] at hlen
    exact hP (List.eq_nil_of_length_eq_zero hlen.symm)
  have hdata : (encryptDirectory m password salt iv P).data =
      bytesToHex salt ++ '.' ::
        (bytesToHex iv ++ '.' :: (bytesToHex tag ++ '.' :: bytesToHex ct)) :=
    rfl
  have hsplit : splitChar '.' (encryptDirectory m password salt iv P).data =
      [bytesToHex salt, bytesToHex iv, bytesToHex tag, bytesToHex ct] := by
    rw [hdata,
      splitChar_append_sep _ (dot_not_mem_bytesToHex hsb),
      splitChar_append_sep _ (dot_not_mem_bytesToHex hivb),
      splitChar_append_sep _ (dot_not_mem_bytesToHex htagb),
      splitChar_of_not_mem (dot_not_mem_bytesToHex hctb)]
  have hparse : parseEnvelope (encryptDirectory m password salt iv P) =
      .ok ⟨salt, iv, tag, ct⟩ := by
    simp [parseEnvelope, hsplit, hexToUint8Array_bytesToHex hsalt hsb,
      hexToUint8Array_bytesToHex hiv hivb,
      hexToUint8Array_bytesToHex htagne htagb,
      hexToUint8Array_bytesToHex hctne hctb,
      except_bind_ok, except_map_ok]
  simp [decryptPackage, hparse, ← hkey, hdec]

theorem toyCipher_correct : GCMCorrect toyCipher := by
  intro key iv p hp
  refine ⟨by simp [toyCipher], ?_, by simp [toyCipher], ?_, ?_⟩
  · intro b hb
    simp only [toyCipher, List.mem_map] at hb
    obtain ⟨a, _, rfl⟩ := hb
    exact Nat.mod_lt _ (by norm_num)
  · intro b hb
    simp only [toyCipher, List.mem_singleton] at hb
    subst hb
    norm_num
  · simp only [toyCipher]
    rw [List.getLast?_concat, if_pos rfl, List.dropLast_concat,
      List.map_map]
    congr 1
    conv_rhs => rw [← List.map_id p]
    apply List.map_congr_left
    intro b hb
    have hblt := hp b hb
    simp only [Function.comp_apply, id_eq]
    omega

/-- Witness for the round-trip theorem: a concrete archive and password
round-trip through the toy cipher instance. -/
theorem envelope_roundtrip_witness :
    decryptPackage toyCipher "correct-horse"
        (encryptDirectory toyCipher "correct-horse" [1] [2] [104, 105]) =
      .ok [104, 105] :=
  envelope_roundtrip toyCipher toyCipher_correct "correct-horse" [1] [2]
    [104, 105] (by decide) (by decide) (by decide)
    (by decide) (by decide) (by decide)

/-- Witness for the undifferentiated-error theorem at a concrete
environment. -/
theorem error_message_undifferentiated_witness :
    (runLoadProject (fun f => f.buffer)
        ⟨true, true, true, true, some "p1", some "pw", true,
          .error .malformedEnvelope, true⟩).1.status = .error ∧
    (runLoadProject (fun f => f.buffer)
        ⟨true, true, true, true, some "p1", some "pw", true,
          .error .authenticationFailed, true⟩).1.status = .error ∧
    (runLoadProject (fun f => f.buffer)
          ⟨true, true, true, true, some "p1", some "pw", true,
            .error .malformedEnvelope, true⟩).1.errorMessage =
      (runLoadProject (fun f => f.buffer)
          ⟨true, true, true, true, some "p1", some "pw", true,
            .error .authenticationFailed, true⟩).1.errorMessage :=
  error_message_undifferentiated (fun f => f.buffer)
    ⟨true, true, true, true, some "p1", some "pw", true, .ok [], true⟩
    .malformedEnvelope .authenticationFailed
    rfl rfl rfl rfl (by decide) (by decide) rfl

end Portal
